import Mathlib

set_option maxHeartbeats 1000000

/-! Shallow embedding of the glimmer-vm dependency-tracking core (revision
clock, tags, autotracking, tracked storage, memoized references) and of the
compile-time/runtime resolver interface boundary. The tracking implementation
is not part of the source sample (only its tests and interface declarations
are), so the corresponding definitions are reconstructed from the spec and
marked `Modelled from the spec:`. -/

namespace Glimmer

/-- Modelled from the spec: a Revision is an integer at least 1. -/
abbrev Revision := Nat

/-- Modelled from the spec: `INITIAL = 1`, the revision of constants and of
freshly created updatable tags. -/
def INITIAL : Revision := 1

/-- Modelled from the spec: the process-wide revision clock state. `current`
is the global counter, `lastDirtied` maps each updatable-cell id to the
revision at which it was last dirtied, and `nextId` allocates fresh cell
ids. -/
structure ClockState where
  current : Revision
  nextId : Nat
  lastDirtied : Nat → Revision

/-- Modelled from the spec: the Tag sum type with Constant, Updatable (one
mutable `lastDirtied` cell, referenced here by id into the clock state) and
Combinator (an ordered set of shared child tags) variants. -/
inductive Tag where
  | constant : Tag
  | updatable (i : Nat) : Tag
  | combinator (children : List Tag) : Tag

/-- Modelled from the spec: the shared constant tag. -/
def CONSTANT_TAG : Tag := Tag.constant

mutual

/-- Boolean structural equality on tags. -/
def Tag.beq : Tag → Tag → Bool
  | .constant, .constant => true
  | .updatable i, .updatable j => i == j
  | .combinator cs, .combinator ds => Tag.beqList cs ds
  | _, _ => false

/-- Boolean structural equality on lists of tags. -/
def Tag.beqList : List Tag → List Tag → Bool
  | [], [] => true
  | t :: ts, u :: us => Tag.beq t u && Tag.beqList ts us
  | _, _ => false

end

mutual

theorem Tag.beq_iff : (t u : Tag) → (Tag.beq t u = true ↔ t = u)
  | .constant, .constant => by simp [Tag.beq]
  | .constant, .updatable _ => by simp [Tag.beq]
  | .constant, .combinator _ => by simp [Tag.beq]
  | .updatable _, .constant => by simp [Tag.beq]
  | .updatable _, .updatable _ => by simp [Tag.beq]
  | .updatable _, .combinator _ => by simp [Tag.beq]
  | .combinator _, .constant => by simp [Tag.beq]
  | .combinator _, .updatable _ => by simp [Tag.beq]
  | .combinator cs, .combinator ds => by
      rw [Tag.beq, Tag.beqList_iff cs ds]
      constructor
      · intro h; rw [h]
      · intro h; injection h

theorem Tag.beqList_iff : (ts us : List Tag) → (Tag.beqList ts us = true ↔ ts = us)
  | [], [] => by simp [Tag.beqList]
  | [], _ :: _ => by simp [Tag.beqList]
  | _ :: _, [] => by simp [Tag.beqList]
  | t :: ts, u :: us => by
      rw [Tag.beqList]
      simp only [Bool.and_eq_true]
      rw [Tag.beq_iff t u, Tag.beqList_iff ts us]
      constructor
      · rintro ⟨h1, h2⟩; rw [h1, h2]
      · intro h; injection h with h1 h2; exact ⟨h1, h2⟩

end

instance : DecidableEq Tag := fun t u => decidable_of_iff _ (Tag.beq_iff t u)

mutual

/-- Modelled from the spec: `value(tag)` returns `INITIAL` for a Constant,
`lastDirtied` for an Updatable, and the maximum of the children's values
(base `INITIAL`, so an empty combinator behaves as Constant) for a
Combinator, recomputed on each call. -/
def Tag.value (s : ClockState) : Tag → Revision
  | .constant => INITIAL
  | .updatable i => s.lastDirtied i
  | .combinator cs => Tag.valueList s cs

/-- Maximum of `Tag.value` over a list of tags, with base `INITIAL`. -/
def Tag.valueList (s : ClockState) : List Tag → Revision
  | [] => INITIAL
  | t :: ts => max (Tag.value s t) (Tag.valueList s ts)

end

/-- Modelled from the spec: `bump()` increments the global counter. Dirtying
the updatable cell `i` sets its `lastDirtied` to the bumped revision. -/
def dirtyUpd (s : ClockState) (i : Nat) : ClockState :=
  { s with
    current := s.current + 1
    lastDirtied := fun j => if j = i then s.current + 1 else s.lastDirtied j }

/-- Modelled from the spec: `validate(tag, snapshot)` returns
`value(tag) <= snapshot`. -/
def validate (s : ClockState) (t : Tag) (snapshot : Revision) : Bool :=
  decide (Tag.value s t ≤ snapshot)

/-- Modelled from the spec: `createUpdatableTag()` returns a fresh cell at
`INITIAL`. -/
def createUpdatableTag (s : ClockState) : Tag × ClockState :=
  (Tag.updatable s.nextId,
   { s with
     nextId := s.nextId + 1
     lastDirtied := fun j => if j = s.nextId then INITIAL else s.lastDirtied j })

/-- Modelled from the spec: error taxonomy of the tracking core. -/
inductive GlimmerError where
  | invalidOperation : GlimmerError
  | unpairedTrackFrame : GlimmerError
  deriving DecidableEq

/-- Modelled from the spec: `dirty(tag)` is valid only on Updatable tags;
dirtying a Constant or Combinator fails with `InvalidOperation`. -/
def dirty (s : ClockState) (t : Tag) : Except GlimmerError ClockState :=
  match t with
  | .updatable i => .ok (dirtyUpd s i)
  | _ => .error .invalidOperation

mutual

/-- The set (as a list) of updatable-cell ids reachable from a tag: its
constituent Updatables. -/
def Tag.updatables : Tag → List Nat
  | .constant => []
  | .updatable i => [i]
  | .combinator cs => Tag.updatablesList cs

/-- Concatenation of `Tag.updatables` over a list of tags. -/
def Tag.updatablesList : List Tag → List Nat
  | [] => []
  | t :: ts => Tag.updatables t ++ Tag.updatablesList ts

end

/-- A sequence of `dirty` operations on updatable cells, modelling the
passage of time between two observation points. -/
def dirtySeq (s : ClockState) (ops : List Nat) : ClockState :=
  ops.foldl dirtyUpd s

/-- Well-formedness of the clock state: the counter is at least `INITIAL`
and every cell's `lastDirtied` lies between `INITIAL` and the counter. -/
def ClockState.WF (s : ClockState) : Prop :=
  INITIAL ≤ s.current ∧ ∀ i, INITIAL ≤ s.lastDirtied i ∧ s.lastDirtied i ≤ s.current

/-- A tag only mentions updatable cells already allocated in `s`. -/
def Tag.AllocatedIn (t : Tag) (s : ClockState) : Prop :=
  ∀ i ∈ t.updatables, i < s.nextId

/-- Modelled from the spec: `combine(tags)` returns Constant if the set is
empty or contains only Constants, the single tag if exactly one non-constant
member, and otherwise a Combinator over the deduplicated non-constant
members. -/
def combine (ts : List Tag) : Tag :=
  match (ts.filter (fun t => !decide (t = Tag.constant))).dedup with
  | [] => Tag.constant
  | [t] => t
  | other => Tag.combinator other

theorem initial_le_valueList (s : ClockState) : (ts : List Tag) → INITIAL ≤ Tag.valueList s ts
  | [] => le_refl _
  | _ :: ts => by
      rw [Tag.valueList]
      exact le_max_of_le_right (initial_le_valueList s ts)

theorem initial_le_value (s : ClockState) (h : s.WF) : (t : Tag) → INITIAL ≤ Tag.value s t
  | .constant => le_refl _
  | .updatable i => (h.2 i).1
  | .combinator cs => by rw [Tag.value]; exact initial_le_valueList s cs

mutual

theorem value_le_current (s : ClockState) (h : s.WF) : (t : Tag) → Tag.value s t ≤ s.current
  | .constant => h.1
  | .updatable i => (h.2 i).2
  | .combinator cs => by rw [Tag.value]; exact valueList_le_current s h cs

theorem valueList_le_current (s : ClockState) (h : s.WF) :
    (ts : List Tag) → Tag.valueList s ts ≤ s.current
  | [] => h.1
  | t :: ts => by
      rw [Tag.valueList]
      exact max_le (value_le_current s h t) (valueList_le_current s h ts)

end

mutual

theorem value_congr (s1 s2 : ClockState) :
    (t : Tag) → (∀ i ∈ t.updatables, s1.lastDirtied i = s2.lastDirtied i) →
    Tag.value s1 t = Tag.value s2 t
  | .constant, _ => rfl
  | .updatable i, h => h i (by simp [Tag.updatables])
  | .combinator cs, h => by
      rw [Tag.value, Tag.value]
      exact valueList_congr s1 s2 cs (by simpa [Tag.updatables] using h)

theorem valueList_congr (s1 s2 : ClockState) :
    (ts : List Tag) → (∀ i ∈ Tag.updatablesList ts, s1.lastDirtied i = s2.lastDirtied i) →
    Tag.valueList s1 ts = Tag.valueList s2 ts
  | [], _ => rfl
  | t :: ts, h => by
      rw [Tag.valueList, Tag.valueList]
      rw [value_congr s1 s2 t (fun i hi => h i (by simp [Tag.updatablesList, hi]))]
      rw [valueList_congr s1 s2 ts (fun i hi => h i (by simp [Tag.updatablesList, hi]))]

end

mutual

theorem value_mono (s1 s2 : ClockState) (h : ∀ j, s1.lastDirtied j ≤ s2.lastDirtied j) :
    (t : Tag) → Tag.value s1 t ≤ Tag.value s2 t
  | .constant => le_refl _
  | .updatable i => h i
  | .combinator cs => by
      rw [Tag.value, Tag.value]
      exact valueList_mono s1 s2 h cs

theorem valueList_mono (s1 s2 : ClockState) (h : ∀ j, s1.lastDirtied j ≤ s2.lastDirtied j) :
    (ts : List Tag) → Tag.valueList s1 ts ≤ Tag.valueList s2 ts
  | [] => le_refl _
  | t :: ts => by
      rw [Tag.valueList, Tag.valueList]
      exact max_le_max (value_mono s1 s2 h t) (valueList_mono s1 s2 h ts)

end

mutual

theorem le_value_of_mem (s : ClockState) :
    (t : Tag) → (i : Nat) → i ∈ t.updatables → s.lastDirtied i ≤ Tag.value s t
  | .constant, i, hi => by simp [Tag.updatables] at hi
  | .updatable j, i, hi => by
      simp [Tag.updatables] at hi
      subst hi
      exact le_refl _
  | .combinator cs, i, hi => by
      rw [Tag.value]
      exact le_valueList_of_mem s cs i (by simpa [Tag.updatables] using hi)

theorem le_valueList_of_mem (s : ClockState) :
    (ts : List Tag) → (i : Nat) → i ∈ Tag.updatablesList ts →
    s.lastDirtied i ≤ Tag.valueList s ts
  | [], i, hi => by simp [Tag.updatablesList] at hi
  | t :: ts, i, hi => by
      rw [Tag.valueList]
      rw [Tag.updatablesList, List.mem_append] at hi
      rcases hi with hi | hi
      · exact le_max_of_le_left (le_value_of_mem s t i hi)
      · exact le_max_of_le_right (le_valueList_of_mem s ts i hi)

end

theorem dirtyUpd_WF (s : ClockState) (i : Nat) (h : s.WF) : (dirtyUpd s i).WF := by
  refine ⟨le_trans h.1 (Nat.le_succ _), fun j => ?_⟩
  by_cases hji : j = i
  · simp [dirtyUpd, hji]
    exact le_trans h.1 (Nat.le_succ _)
  · simp [dirtyUpd, hji]
    exact ⟨(h.2 j).1, le_trans (h.2 j).2 (Nat.le_succ _)⟩

theorem dirtyUpd_lastDirtied_le (s : ClockState) (i : Nat) (h : s.WF) (j : Nat) :
    s.lastDirtied j ≤ (dirtyUpd s i).lastDirtied j := by
  by_cases hji : j = i
  · simp [dirtyUpd, hji]
    exact le_trans (h.2 i).2 (Nat.le_succ _)
  · simp [dirtyUpd, hji]

theorem value_dirtyUpd_not_mem (s : ClockState) (i : Nat) (t : Tag)
    (h : i ∉ t.updatables) : Tag.value (dirtyUpd s i) t = Tag.value s t := by
  refine value_congr _ _ t (fun j hj => ?_)
  have hji : j ≠ i := fun e => h (e ▸ hj)
  simp [dirtyUpd, hji]

theorem current_lt_value_dirtyUpd (s : ClockState) (i : Nat) (t : Tag)
    (h : i ∈ t.updatables) : s.current < Tag.value (dirtyUpd s i) t := by
  have h1 : (dirtyUpd s i).lastDirtied i ≤ Tag.value (dirtyUpd s i) t :=
    le_value_of_mem _ t i h
  simp [dirtyUpd] at h1
  exact lt_of_lt_of_le (Nat.lt_succ_self _) h1

theorem value_lt_value_dirtyUpd (s : ClockState) (i : Nat) (t : Tag) (hwf : s.WF)
    (h : i ∈ t.updatables) : Tag.value s t < Tag.value (dirtyUpd s i) t :=
  lt_of_le_of_lt (value_le_current s hwf t) (current_lt_value_dirtyUpd s i t h)

theorem dirtySeq_cons (s : ClockState) (i : Nat) (ops : List Nat) :
    dirtySeq s (i :: ops) = dirtySeq (dirtyUpd s i) ops := rfl

theorem dirtySeq_WF (s : ClockState) (ops : List Nat) (h : s.WF) : (dirtySeq s ops).WF := by
  induction ops generalizing s with
  | nil => exact h
  | cons i ops ih => exact ih _ (dirtyUpd_WF s i h)

theorem dirtySeq_nextId (s : ClockState) (ops : List Nat) :
    (dirtySeq s ops).nextId = s.nextId := by
  induction ops generalizing s with
  | nil => rfl
  | cons i ops ih => exact ih (dirtyUpd s i)

theorem dirtySeq_lastDirtied_le (s : ClockState) (ops : List Nat) (h : s.WF) (j : Nat) :
    s.lastDirtied j ≤ (dirtySeq s ops).lastDirtied j := by
  induction ops generalizing s with
  | nil => exact le_refl _
  | cons i ops ih =>
      exact le_trans (dirtyUpd_lastDirtied_le s i h j) (ih _ (dirtyUpd_WF s i h))

theorem value_le_dirtySeq (s : ClockState) (ops : List Nat) (t : Tag) (h : s.WF) :
    Tag.value s t ≤ Tag.value (dirtySeq s ops) t :=
  value_mono _ _ (dirtySeq_lastDirtied_le s ops h) t

theorem dirtySeq_lastDirtied_not_mem (s : ClockState) (ops : List Nat) (j : Nat)
    (h : j ∉ ops) : (dirtySeq s ops).lastDirtied j = s.lastDirtied j := by
  induction ops generalizing s with
  | nil => rfl
  | cons i ops ih =>
      rw [dirtySeq_cons, ih _ (fun hm => h (List.mem_cons_of_mem i hm))]
      have hji : j ≠ i := fun e => h (e ▸ List.mem_cons_self j ops)
      simp [dirtyUpd, hji]

theorem value_dirtySeq_disjoint (s : ClockState) (ops : List Nat) (t : Tag)
    (h : ∀ i ∈ ops, i ∉ t.updatables) :
    Tag.value (dirtySeq s ops) t = Tag.value s t := by
  refine value_congr _ _ t (fun j hj => ?_)
  refine dirtySeq_lastDirtied_not_mem s ops j (fun hm => ?_)
  exact h j hm hj

theorem value_lt_dirtySeq_mem (s : ClockState) (ops : List Nat) (t : Tag) (hwf : s.WF)
    (h : ∃ i ∈ ops, i ∈ t.updatables) :
    Tag.value s t < Tag.value (dirtySeq s ops) t := by
  induction ops generalizing s with
  | nil => simp at h
  | cons i ops ih =>
      rw [dirtySeq_cons]
      by_cases hi : i ∈ t.updatables
      · exact lt_of_lt_of_le (value_lt_value_dirtyUpd s i t hwf hi)
          (value_le_dirtySeq _ ops t (dirtyUpd_WF s i hwf))
      · rcases h with ⟨j, hj, hjt⟩
        have hj2 : j ∈ ops := by
          rcases List.mem_cons.mp hj with he | hm
          · exact absurd (he ▸ hjt) hi
          · exact hm
        have := ih (dirtyUpd s i) (dirtyUpd_WF s i hwf) ⟨j, hj2, hjt⟩
        rwa [value_dirtyUpd_not_mem s i t hi] at this

/-- Modelled from the spec: the autotrack stack is a call-stack-shaped list
of open tracking frames, each an ordered list of consumed tags. -/
abbrev TrackingStack := List (List Tag)

/-- Modelled from the spec: `beginTrackFrame()` pushes a new empty
consumed-tag set. -/
def beginTrackFrame (st : TrackingStack) : TrackingStack := [] :: st

/-- Modelled from the spec: `consumeTag(tag)` adds the tag to the top frame
when the stack is non-empty, and is a no-op when the stack is empty
(untracked reads are legal). -/
def consumeTag (st : TrackingStack) (t : Tag) : TrackingStack :=
  match st with
  | [] => []
  | f :: fs => (f ++ [t]) :: fs

/-- Modelled from the spec: `endTrackFrame()` pops the top frame and returns
`combine` of its collected set; without a matching `beginTrackFrame` it fails
with `UnpairedTrackFrame`. -/
def endTrackFrame (st : TrackingStack) : Except GlimmerError (Tag × TrackingStack) :=
  match st with
  | [] => .error .unpairedTrackFrame
  | f :: fs => .ok (combine f, fs)

/-- Modelled from the spec: the TrackedStorage world. `table` is the
identity-keyed side table mapping (object identity, property key) to the
cell id of its lazily created Updatable, `cellVals` holds the raw value of
each cell, `objVals` holds the plain (non-storage) field values of each
object, `frozen` marks frozen objects, and `tracked` records which fields
were declared via `markTracked`. -/
structure Store (V : Type) where
  clock : ClockState
  table : Nat → String → Option Nat
  cellVals : Nat → V
  objVals : Nat → String → V
  frozen : Nat → Bool
  tracked : Nat → String → Bool

/-- Modelled from the spec: resolve the cell for `(o, k)`, lazily creating
one (with a fresh Updatable tag at `INITIAL`, seeded with the object's field
value) on first access. -/
def resolveCell {V : Type} (w : Store V) (o : Nat) (k : String) : Nat × Store V :=
  match w.table o k with
  | some i => (i, w)
  | none =>
      let i := w.clock.nextId
      (i, { w with
            clock := (createUpdatableTag w.clock).2
            table := fun o2 k2 => if o2 = o ∧ k2 = k then some i else w.table o2 k2
            cellVals := fun j => if j = i then w.objVals o k else w.cellVals j })

/-- Modelled from the spec: `tagFor(object, key)` returns the Updatable tag
of the (lazily created) cell for the given object/key pair. -/
def tagFor {V : Type} (w : Store V) (o : Nat) (k : String) : Tag × Store V :=
  let p := resolveCell w o k
  (Tag.updatable p.1, p.2)

/-- Modelled from the spec: requesting a tag for a value with no meaningful
identity (`none`) returns `CONSTANT_TAG`; otherwise it is `tagFor`. -/
def tagForValue {V : Type} (w : Store V) (owner : Option Nat) (k : String) : Tag × Store V :=
  match owner with
  | none => (CONSTANT_TAG, w)
  | some o => tagFor w o k

/-- Modelled from the spec: `get(owner, key)` consumes the cell's tag against
the current top tracking frame (if any) and returns the raw stored value.
It never raises. -/
def storageGet {V : Type} (w : Store V) (st : TrackingStack) (o : Nat) (k : String) :
    Except GlimmerError (V × Store V × TrackingStack) :=
  let p := resolveCell w o k
  .ok (p.2.cellVals p.1, p.2, consumeTag st (Tag.updatable p.1))

/-- Write a raw value into cell `i` and dirty its tag (the tail of the
spec's `set(owner, key, newValue)` once the cell is resolved). -/
def setCell {V : Type} (w : Store V) (i : Nat) (v : V) : Store V :=
  { w with
    cellVals := fun j => if j = i then v else w.cellVals j
    clock := dirtyUpd w.clock i }

/-- Modelled from the spec: `set(owner, key, newValue)` stores the value and
dirties the cell's tag; a write against a frozen object is tolerated as a
silent no-op (`FrozenTargetIgnored` semantics) rather than raised. -/
def storageSet {V : Type} (w : Store V) (o : Nat) (k : String) (v : V) :
    Except GlimmerError (Store V) :=
  if w.frozen o then .ok w
  else
    let p := resolveCell w o k
    .ok (setCell p.2 p.1 v)

/-- Modelled from the spec: an ordinary field assignment. Tracked fields
route through `storageSet`; plain data fields never declared as tracked are
written directly to the object and never dirty any tag; frozen objects are
silent no-ops. -/
def plainWrite {V : Type} (w : Store V) (o : Nat) (k : String) (v : V) :
    Except GlimmerError (Store V) :=
  if w.frozen o then .ok w
  else if w.tracked o k then storageSet w o k v
  else .ok { w with
             objVals := fun o2 k2 => if o2 = o ∧ k2 = k then v else w.objVals o2 k2 }

/-- The test helper `unrelatedBump`: create a fresh Updatable and dirty it. -/
def unrelatedBump (s : ClockState) : ClockState :=
  let p := createUpdatableTag s
  match dirty p.2 p.1 with
  | .ok s2 => s2
  | .error _ => p.2

/-- Modelled from the spec: a MemoizedReference wraps a derived computation.
`deps` is the (fixed) footprint of storage cells its evaluation reads,
`compute` derives the result from the raw cell values, and `cache` is the
optional `(lastRevision, lastValue, tag)` triple. -/
structure MemoRef (V : Type) where
  deps : List Nat
  compute : (Nat → V) → V
  cache : Option (Revision × V × Tag)

/-- Result of one `MemoizedReference.value()` call: the returned value, the
updated reference, the resulting tracking stack, and how many times the
underlying computation was invoked during the call. -/
structure EvalResult (V : Type) where
  val : V
  ref : MemoRef V
  stack : TrackingStack
  evals : Nat

/-- Modelled from the spec: the recomputation path of
`MemoizedReference.value()`: open a frame, evaluate (consuming the tag of
every dependency cell read), close the frame into a combined tag, snapshot
it and store the cache triple. -/
def MemoRef.recompute {V : Type} (w : Store V) (st : TrackingStack) (m : MemoRef V) :
    EvalResult V :=
  let st1 := beginTrackFrame st
  let st2 := m.deps.foldl (fun acc i => consumeTag acc (Tag.updatable i)) st1
  let v := m.compute w.cellVals
  match endTrackFrame st2 with
  | .ok (t, st3) => ⟨v, { m with cache := some (Tag.value w.clock t, v, t) }, st3, 1⟩
  | .error _ => ⟨v, m, st2, 1⟩

/-- Modelled from the spec: `MemoizedReference.value()` returns the cached
value without invoking the computation when the cache exists and validates;
otherwise it recomputes unconditionally. -/
def MemoRef.value {V : Type} (w : Store V) (st : TrackingStack) (m : MemoRef V) :
    EvalResult V :=
  match m.cache with
  | some (rev, v, t) =>
      if validate w.clock t rev then ⟨v, m, st, 0⟩ else m.recompute w st
  | none => m.recompute w st

theorem value_constant (s : ClockState) : Tag.value s Tag.constant = INITIAL := by
  rw [Tag.value]

theorem value_updatable (s : ClockState) (i : Nat) :
    Tag.value s (Tag.updatable i) = s.lastDirtied i := by
  rw [Tag.value]

theorem value_combinator (s : ClockState) (cs : List Tag) :
    Tag.value s (Tag.combinator cs) = Tag.valueList s cs := by
  rw [Tag.value]

theorem valueList_nil (s : ClockState) : Tag.valueList s [] = INITIAL := by
  rw [Tag.valueList]

theorem valueList_cons (s : ClockState) (t : Tag) (ts : List Tag) :
    Tag.valueList s (t :: ts) = max (Tag.value s t) (Tag.valueList s ts) := by
  rw [Tag.valueList]

theorem value_le_valueList_of_mem (s : ClockState) (t : Tag) :
    (ts : List Tag) → t ∈ ts → Tag.value s t ≤ Tag.valueList s ts
  | [], h => by simp at h
  | u :: us, h => by
      rw [Tag.valueList]
      rcases List.mem_cons.mp h with he | hm
      · exact le_max_of_le_left (le_of_eq (by rw [he]))
      · exact le_max_of_le_right (value_le_valueList_of_mem s t us hm)

theorem valueList_filter_constant (s : ClockState) : (ts : List Tag) →
    Tag.valueList s (ts.filter (fun u => !decide (u = Tag.constant))) = Tag.valueList s ts
  | [] => rfl
  | t :: ts => by
      by_cases hc : t = Tag.constant
      · subst hc
        rw [show (Tag.constant :: ts).filter (fun u => !decide (u = Tag.constant))
              = ts.filter (fun u => !decide (u = Tag.constant)) by simp]
        rw [valueList_filter_constant s ts, valueList_cons, value_constant,
            max_eq_right (initial_le_valueList s ts)]
      · rw [show (t :: ts).filter (fun u => !decide (u = Tag.constant))
              = t :: ts.filter (fun u => !decide (u = Tag.constant)) by simp [hc]]
        rw [valueList_cons, valueList_cons, valueList_filter_constant s ts]

theorem valueList_dedup (s : ClockState) : (ts : List Tag) →
    Tag.valueList s ts.dedup = Tag.valueList s ts
  | [] => rfl
  | t :: ts => by
      by_cases hm : t ∈ ts
      · rw [List.dedup_cons_of_mem hm, valueList_dedup s ts, valueList_cons]
        exact (max_eq_right (value_le_valueList_of_mem s t ts hm)).symm
      · rw [List.dedup_cons_of_not_mem hm, valueList_cons, valueList_cons,
            valueList_dedup s ts]

theorem value_combine (s : ClockState) (hwf : s.WF) (ts : List Tag) :
    Tag.value s (combine ts) = Tag.valueList s ts := by
  have hl : Tag.valueList s ((ts.filter (fun u => !decide (u = Tag.constant))).dedup)
      = Tag.valueList s ts := by
    rw [valueList_dedup, valueList_filter_constant]
  unfold combine
  rcases hd : (ts.filter (fun u => !decide (u = Tag.constant))).dedup with _ | ⟨t, _ | ⟨u, ls⟩⟩
  · rw [hd] at hl
    rw [valueList_nil] at hl
    show Tag.value s Tag.constant = Tag.valueList s ts
    rw [value_constant]
    exact hl
  · rw [hd] at hl
    rw [valueList_cons, valueList_nil, max_eq_left (initial_le_value s hwf t)] at hl
    show Tag.value s t = Tag.valueList s ts
    exact hl
  · rw [hd] at hl
    show Tag.value s (Tag.combinator (t :: u :: ls)) = Tag.valueList s ts
    rw [value_combinator]
    exact hl

theorem updatablesList_map_updatable : (deps : List Nat) →
    Tag.updatablesList (deps.map Tag.updatable) = deps
  | [] => rfl
  | i :: deps => by
      rw [List.map_cons, Tag.updatablesList, Tag.updatables,
          updatablesList_map_updatable deps]
      rfl

theorem consumeTag_foldl (fs : TrackingStack) (deps : List Nat) : (f : List Tag) →
    deps.foldl (fun acc i => consumeTag acc (Tag.updatable i)) (f :: fs)
      = (f ++ deps.map Tag.updatable) :: fs := by
  induction deps with
  | nil => intro f; simp
  | cons i deps ih =>
      intro f
      rw [List.foldl_cons]
      have h1 : consumeTag (f :: fs) (Tag.updatable i) = (f ++ [Tag.updatable i]) :: fs := rfl
      rw [h1, ih (f ++ [Tag.updatable i])]
      simp

theorem recompute_eq {V : Type} (w : Store V) (st : TrackingStack) (m : MemoRef V) :
    m.recompute w st =
      ⟨m.compute w.cellVals,
       { m with cache := some (Tag.value w.clock (combine (m.deps.map Tag.updatable)),
                               m.compute w.cellVals,
                               combine (m.deps.map Tag.updatable)) },
       st, 1⟩ := by
  unfold MemoRef.recompute beginTrackFrame
  simp only [consumeTag_foldl st m.deps, List.nil_append, endTrackFrame]

theorem value_createUpdatable (s : ClockState) (T : Tag) (h : T.AllocatedIn s) :
    Tag.value (createUpdatableTag s).2 T = Tag.value s T := by
  refine value_congr _ _ T (fun j hj => ?_)
  have hne : j ≠ s.nextId := Nat.ne_of_lt (h j hj)
  simp [createUpdatableTag, hne]

theorem value_unrelatedBump (s : ClockState) (T : Tag) (h : T.AllocatedIn s) :
    Tag.value (unrelatedBump s) T = Tag.value s T := by
  have he : unrelatedBump s = dirtyUpd (createUpdatableTag s).2 s.nextId := rfl
  rw [he, value_dirtyUpd_not_mem _ _ _ (fun hm => Nat.lt_irrefl _ (h _ hm)),
      value_createUpdatable s T h]

/-- A concrete well-formed clock state (counter 1, four allocated cells, all
at `INITIAL`) used by the witnesses. -/
def clock0 : ClockState := ⟨1, 4, fun _ => 1⟩

theorem clock0_WF : clock0.WF := ⟨le_refl 1, fun _ => ⟨le_refl 1, le_refl 1⟩⟩

/-- A concrete nested tag shaped like the contact-level combinator of the
nested test: person's firstName/lastName cells 0 and 1 nested one level
down, the email cell 2 at the top; cell 3 is an unrelated sibling. -/
def tagEx : Tag :=
  Tag.combinator [Tag.combinator [Tag.updatable 0, Tag.updatable 1], Tag.updatable 2]

/-- Claim C1: if no constituent Updatable reachable from a tag `T` is dirtied
between two points in time, `value(T)` is unchanged; conversely if any
constituent Updatable reachable from `T` is dirtied in between, `value(T)`
strictly increases; in particular every `dirty(u)` on an Updatable strictly
increases `value(u)`. -/
theorem C1_revision_invariant (s : ClockState) (hwf : s.WF) (T : Tag) (ops : List Nat) :
    ((∀ i ∈ ops, i ∉ T.updatables) → Tag.value (dirtySeq s ops) T = Tag.value s T)
    ∧ ((∃ i ∈ ops, i ∈ T.updatables) → Tag.value s T < Tag.value (dirtySeq s ops) T)
    ∧ (∀ u : Nat, Tag.value s (Tag.updatable u) < Tag.value (dirtyUpd s u) (Tag.updatable u)) :=
  ⟨fun h => value_dirtySeq_disjoint s ops T h,
   fun h => value_lt_dirtySeq_mem s ops T hwf h,
   fun u => value_lt_value_dirtyUpd s u (Tag.updatable u) hwf (by simp [Tag.updatables])⟩

/-- Witness for C1 at a concrete clock state, nested tag and dirty list. -/
theorem C1_revision_invariant_witness :
    ((∀ i ∈ [3], i ∉ tagEx.updatables) →
        Tag.value (dirtySeq clock0 [3]) tagEx = Tag.value clock0 tagEx)
    ∧ ((∃ i ∈ [3], i ∈ tagEx.updatables) →
        Tag.value clock0 tagEx < Tag.value (dirtySeq clock0 [3]) tagEx)
    ∧ (∀ u : Nat,
        Tag.value clock0 (Tag.updatable u) < Tag.value (dirtyUpd clock0 u) (Tag.updatable u)) :=
  C1_revision_invariant clock0 clock0_WF tagEx [3]

/-- Claim C2: `validate(tag, snapshot)` returns `value(tag) <= snapshot`;
equivalently, when the snapshot was obtained via `value(tag)`, `validate` is
true afterwards iff nothing reachable from the tag was dirtied since. -/
theorem C2_validate_spec (s : ClockState) (hwf : s.WF) (t : Tag) (snapshot : Revision)
    (ops : List Nat) :
    (validate s t snapshot = decide (Tag.value s t ≤ snapshot))
    ∧ (validate (dirtySeq s ops) t (Tag.value s t) = true ↔ ∀ i ∈ ops, i ∉ t.updatables) := by
  refine ⟨rfl, ?_, ?_⟩
  · intro h
    intro i hi
    by_contra hit
    have hlt := value_lt_dirtySeq_mem s ops t hwf ⟨i, hi, hit⟩
    rw [validate, decide_eq_true_eq] at h
    exact absurd h (not_le.mpr hlt)
  · intro h
    rw [validate, decide_eq_true_eq, value_dirtySeq_disjoint s ops t h]

/-- Witness for C2 at a concrete clock state, tag, snapshot and dirty list. -/
theorem C2_validate_spec_witness :
    (validate clock0 tagEx 1 = decide (Tag.value clock0 tagEx ≤ 1))
    ∧ (validate (dirtySeq clock0 [0]) tagEx (Tag.value clock0 tagEx) = true ↔
        ∀ i ∈ [0], i ∉ tagEx.updatables) :=
  C2_validate_spec clock0 clock0_WF tagEx 1 [0]

/-- Claim C3: dirtying an Updatable reachable from a combinator tag after a
snapshot `value(C)` was taken makes `validate(C, snapshot)` false, across
nested object graphs, while dirtying an Updatable not reachable from it
leaves the snapshot valid. -/
theorem C3_invalidation (s : ClockState) (hwf : s.WF) (C : Tag) (i j : Nat)
    (hi : i ∈ C.updatables) (hj : j ∉ C.updatables) :
    validate (dirtyUpd s i) C (Tag.value s C) = false
    ∧ validate (dirtyUpd s j) C (Tag.value s C) = true := by
  constructor
  · simp only [validate, decide_eq_false_iff_not, not_le]
    exact value_lt_value_dirtyUpd s i C hwf hi
  · simp only [validate, decide_eq_true_eq]
    rw [value_dirtyUpd_not_mem s j C hj]

/-- Witness for C3: the nested contact-level combinator is invalidated by
dirtying the nested firstName cell 0 and not by the unrelated cell 3. -/
theorem C3_invalidation_witness :
    validate (dirtyUpd clock0 0) tagEx (Tag.value clock0 tagEx) = false
    ∧ validate (dirtyUpd clock0 3) tagEx (Tag.value clock0 tagEx) = true :=
  C3_invalidation clock0 clock0_WF tagEx 0 3 (by decide) (by decide)

/-- Claim C4: `validate(T, value(T))` holds immediately after the snapshot,
and keeps holding across any number of dirties of Updatables not reachable
from `T`, including creating and dirtying a fresh unrelated Updatable. -/
theorem C4_validity_after_no_change (s : ClockState) (T : Tag)
    (ops : List Nat) (hops : ∀ i ∈ ops, i ∉ T.updatables) (halloc : T.AllocatedIn s) :
    validate s T (Tag.value s T) = true
    ∧ validate (dirtySeq s ops) T (Tag.value s T) = true
    ∧ validate (unrelatedBump (dirtySeq s ops)) T (Tag.value s T) = true := by
  have halloc2 : T.AllocatedIn (dirtySeq s ops) := by
    intro i hi
    rw [dirtySeq_nextId]
    exact halloc i hi
  have h2 : Tag.value (dirtySeq s ops) T = Tag.value s T :=
    value_dirtySeq_disjoint s ops T hops
  refine ⟨by simp [validate], ?_, ?_⟩
  · rw [validate, decide_eq_true_eq, h2]
  · rw [validate, decide_eq_true_eq, value_unrelatedBump _ T halloc2, h2]

/-- Witness for C4: the snapshot of the nested tag stays valid across a
dirty of the unrelated cell 3 followed by a fresh-tag bump. -/
theorem C4_validity_after_no_change_witness :
    validate clock0 tagEx (Tag.value clock0 tagEx) = true
    ∧ validate (dirtySeq clock0 [3]) tagEx (Tag.value clock0 tagEx) = true
    ∧ validate (unrelatedBump (dirtySeq clock0 [3])) tagEx (Tag.value clock0 tagEx) = true :=
  C4_validity_after_no_change clock0 tagEx [3] (by decide)
    (show ∀ i ∈ tagEx.updatables, i < clock0.nextId by decide)

theorem value_cache_hit {V : Type} (w : Store V) (st : TrackingStack) (m : MemoRef V)
    (rev : Revision) (v : V) (t : Tag) (hc : m.cache = some (rev, v, t))
    (hv : validate w.clock t rev = true) :
    MemoRef.value w st m = ⟨v, m, st, 0⟩ := by
  unfold MemoRef.value
  rw [hc]
  simp [hv]

theorem value_cache_miss {V : Type} (w : Store V) (st : TrackingStack) (m : MemoRef V)
    (rev : Revision) (v : V) (t : Tag) (hc : m.cache = some (rev, v, t))
    (hv : validate w.clock t rev = false) :
    MemoRef.value w st m = m.recompute w st := by
  unfold MemoRef.value
  rw [hc]
  simp [hv]

theorem value_cache_none {V : Type} (w : Store V) (st : TrackingStack) (m : MemoRef V)
    (hc : m.cache = none) : MemoRef.value w st m = m.recompute w st := by
  unfold MemoRef.value
  rw [hc]

/-- Claim C5: starting from an uninitialized MemoizedReference, the first
`value()` call invokes the computation; a second call with no intervening
dirtying is cache-served (zero invocations, same value); after a dependency
cell is written, the next call invokes the computation again and returns the
result derived from the updated cell values. -/
theorem C5_memoized_read (V : Type) (w : Store V) (st : TrackingStack) (m : MemoRef V)
    (hwf : w.clock.WF) (hm : m.cache = none) :
    (MemoRef.value w st m).evals = 1
    ∧ (MemoRef.value w st (MemoRef.value w st m).ref).evals = 0
    ∧ (MemoRef.value w st (MemoRef.value w st m).ref).val = (MemoRef.value w st m).val
    ∧ (∀ i x, i ∈ m.deps →
        (MemoRef.value (setCell w i x) st (MemoRef.value w st m).ref).evals = 1
        ∧ (MemoRef.value (setCell w i x) st (MemoRef.value w st m).ref).val
            = m.compute (setCell w i x).cellVals) := by
  rw [value_cache_none w st m hm, recompute_eq]
  have hvalid : validate w.clock (combine (m.deps.map Tag.updatable))
      (Tag.value w.clock (combine (m.deps.map Tag.updatable))) = true := by
    simp [validate]
  refine ⟨rfl, ?_, ?_, ?_⟩
  · rw [value_cache_hit _ _ _ _ _ _ rfl hvalid]
  · rw [value_cache_hit _ _ _ _ _ _ rfl hvalid]
  · intro i x hi
    have hcl : (setCell w i x).clock = dirtyUpd w.clock i := rfl
    have hinvalid : validate (setCell w i x).clock (combine (m.deps.map Tag.updatable))
        (Tag.value w.clock (combine (m.deps.map Tag.updatable))) = false := by
      rw [hcl]
      simp only [validate, decide_eq_false_iff_not, not_le]
      have hmem : i ∈ Tag.updatablesList (m.deps.map Tag.updatable) := by
        rw [updatablesList_map_updatable]
        exact hi
      calc Tag.value w.clock (combine (m.deps.map Tag.updatable))
          ≤ w.clock.current := value_le_current _ hwf _
        _ < w.clock.current + 1 := Nat.lt_succ_self _
        _ = (dirtyUpd w.clock i).lastDirtied i := by simp [dirtyUpd]
        _ ≤ Tag.valueList (dirtyUpd w.clock i) (m.deps.map Tag.updatable) :=
            le_valueList_of_mem _ _ i hmem
        _ = Tag.value (dirtyUpd w.clock i) (combine (m.deps.map Tag.updatable)) :=
            (value_combine _ (dirtyUpd_WF _ _ hwf) _).symm
    rw [value_cache_miss _ _ _ _ _ _ rfl hinvalid, recompute_eq]
    exact ⟨rfl, rfl⟩

/-- A concrete tracked store: cells 0 and 1 hold the first and last name at
`INITIAL`, and everything is unfrozen and tracked. -/
def store0 : Store String :=
  { clock := clock0
    table := fun _ _ => none
    cellVals := fun i => if i = 0 then "Tom" else if i = 1 then "Dale" else ""
    objVals := fun _ _ => ""
    frozen := fun _ => false
    tracked := fun _ _ => true }

/-- A concrete memoized reference computing `fullName` from cells 0 and 1. -/
def fullNameRef : MemoRef String :=
  { deps := [0, 1]
    compute := fun vals => vals 0 ++ " " ++ vals 1
    cache := none }

/-- Witness for C5 at the concrete fullName reference over the concrete
store. -/
theorem C5_memoized_read_witness :
    (MemoRef.value store0 [] fullNameRef).evals = 1
    ∧ (MemoRef.value store0 [] (MemoRef.value store0 [] fullNameRef).ref).evals = 0
    ∧ (MemoRef.value store0 [] (MemoRef.value store0 [] fullNameRef).ref).val
        = (MemoRef.value store0 [] fullNameRef).val
    ∧ (∀ i x, i ∈ fullNameRef.deps →
        (MemoRef.value (setCell store0 i x) []
            (MemoRef.value store0 [] fullNameRef).ref).evals = 1
        ∧ (MemoRef.value (setCell store0 i x) []
            (MemoRef.value store0 [] fullNameRef).ref).val
            = fullNameRef.compute (setCell store0 i x).cellVals) :=
  C5_memoized_read String store0 [] fullNameRef clock0_WF rfl

theorem tagFor_def {V : Type} (w : Store V) (o : Nat) (k : String) :
    tagFor w o k = (Tag.updatable (resolveCell w o k).1, (resolveCell w o k).2) := rfl

theorem resolveCell_of_table {V : Type} (w : Store V) (o : Nat) (k : String) (i : Nat)
    (h : w.table o k = some i) : resolveCell w o k = (i, w) := by
  unfold resolveCell
  rw [h]

theorem resolveCell_table {V : Type} (w : Store V) (o : Nat) (k : String) :
    (resolveCell w o k).2.table o k = some (resolveCell w o k).1 := by
  unfold resolveCell
  rcases h : w.table o k with _ | i
  · simp
  · simpa using h

theorem resolveCell_tracked {V : Type} (w : Store V) (o : Nat) (k : String) :
    (resolveCell w o k).2.tracked = w.tracked := by
  unfold resolveCell
  rcases h : w.table o k with _ | i <;> rfl

theorem resolveCell_frozen {V : Type} (w : Store V) (o : Nat) (k : String) :
    (resolveCell w o k).2.frozen = w.frozen := by
  unfold resolveCell
  rcases h : w.table o k with _ | i <;> rfl

theorem resolveCell_fresh_value {V : Type} (w : Store V) (o : Nat) (k : String)
    (h : w.table o k = none) :
    (resolveCell w o k).2.clock.lastDirtied (resolveCell w o k).1 = INITIAL := by
  unfold resolveCell
  rw [h]
  simp [createUpdatableTag]

theorem plainWrite_ok {V : Type} (w : Store V) (o : Nat) (k : String) (v : V) :
    ∃ w2, plainWrite w o k v = .ok w2 := by
  unfold plainWrite storageSet
  split_ifs
  · exact ⟨w, rfl⟩
  · exact ⟨_, rfl⟩
  · exact ⟨_, rfl⟩

/-- Claim C6: none of the tolerated conditions raises an error: a storage
read outside any tracking frame, a write against a frozen object (a silent
no-op), an ordinary mutation of a property whose tag was requested via
`tagFor` without being tracked, and requesting a tag for a value with no
identity (which yields `CONSTANT_TAG`). -/
theorem C6_tolerated_no_error (V : Type) (w : Store V) (o : Nat) (k : String) (v : V)
    (hf : w.frozen o = true) (wu : Store V) (ou : Nat) (ku : String)
    (hu : wu.tracked ou ku = false) :
    (∃ r, storageGet w [] o k = .ok r)
    ∧ storageSet w o k v = .ok w
    ∧ (∃ w2, plainWrite (tagFor wu ou ku).2 ou ku v = .ok w2)
    ∧ tagForValue w none k = (CONSTANT_TAG, w) := by
  refine ⟨⟨_, rfl⟩, ?_, plainWrite_ok _ ou ku v, rfl⟩
  unfold storageSet
  rw [if_pos hf]

/-- A concrete store for the error-handling witnesses: object 0 is frozen,
nothing is declared tracked, and the side table is empty. -/
def frozenStore : Store String :=
  { clock := clock0
    table := fun _ _ => none
    cellVals := fun _ => ""
    objVals := fun o k => if o = 0 ∧ k = "firstName" then "Toran" else ""
    frozen := fun o => decide (o = 0)
    tracked := fun _ _ => false }

/-- Witness for C6 over the concrete frozen store. -/
theorem C6_tolerated_no_error_witness :
    (∃ r, storageGet frozenStore [] 0 "firstName" = .ok r)
    ∧ storageSet frozenStore 0 "firstName" "Ricardo" = .ok frozenStore
    ∧ (∃ w2, plainWrite (tagFor frozenStore 1 "lastName").2 1 "lastName" "Ricardo" = .ok w2)
    ∧ tagForValue frozenStore none "firstName" = (CONSTANT_TAG, frozenStore) :=
  C6_tolerated_no_error String frozenStore 0 "firstName" "Ricardo" (by decide)
    frozenStore 1 "lastName" rfl

/-- Claim C7: `tagFor(object, key)` is idempotent per (object, key): a second
lookup returns the same Updatable tag and leaves the store unchanged
(including for frozen objects, which the lookup never consults), so a
snapshot of the tag stays valid across repeated lookups with no dirtying. -/
theorem C7_tagFor_idempotent (V : Type) (w : Store V) (o : Nat) (k : String) :
    tagFor (tagFor w o k).2 o k = tagFor w o k
    ∧ validate (tagFor w o k).2.clock (tagFor w o k).1
        (Tag.value (tagFor w o k).2.clock (tagFor w o k).1) = true := by
  constructor
  · have hp : resolveCell (resolveCell w o k).2 o k
        = ((resolveCell w o k).1, (resolveCell w o k).2) :=
      resolveCell_of_table _ o k _ (resolveCell_table w o k)
    show (Tag.updatable (resolveCell (resolveCell w o k).2 o k).1,
          (resolveCell (resolveCell w o k).2 o k).2) = tagFor w o k
    rw [hp, tagFor_def]
  · simp [validate]

/-- Witness for C7: not required (no hypotheses), stated anyway at the
concrete frozen store to exercise the frozen-object path. -/
theorem C7_tagFor_idempotent_witness :
    tagFor (tagFor frozenStore 0 "firstName").2 0 "firstName"
        = tagFor frozenStore 0 "firstName"
    ∧ validate (tagFor frozenStore 0 "firstName").2.clock
        (tagFor frozenStore 0 "firstName").1
        (Tag.value (tagFor frozenStore 0 "firstName").2.clock
          (tagFor frozenStore 0 "firstName").1) = true :=
  C7_tagFor_idempotent String frozenStore 0 "firstName"

/-- Claim C8: a field never declared tracked still resolves via `tagFor` to a
lazily allocated Updatable tag; an ordinary assignment to the field never
dirties it, so a snapshot stays valid across plain writes, and a freshly
allocated tag has the same value as `CONSTANT_TAG` until explicitly
dirtied. -/
theorem C8_untracked_behaves_constant (V : Type) (w : Store V) (o : Nat) (k : String)
    (v : V) (hnt : w.tracked o k = false) (hnf : w.frozen o = false) :
    ∃ w2, plainWrite (tagFor w o k).2 o k v = .ok w2
      ∧ w2.clock = (tagFor w o k).2.clock
      ∧ validate w2.clock (tagFor w o k).1
          (Tag.value (tagFor w o k).2.clock (tagFor w o k).1) = true
      ∧ (w.table o k = none →
          Tag.value w2.clock (tagFor w o k).1 = Tag.value w2.clock CONSTANT_TAG) := by
  have hnt1 : (resolveCell w o k).2.tracked o k = false := by
    rw [resolveCell_tracked]
    exact hnt
  have hnf1 : (resolveCell w o k).2.frozen o = false := by
    rw [resolveCell_frozen]
    exact hnf
  have hw : plainWrite (tagFor w o k).2 o k v
      = .ok { (resolveCell w o k).2 with
              objVals := fun o2 k2 =>
                if o2 = o ∧ k2 = k then v else (resolveCell w o k).2.objVals o2 k2 } := by
    rw [tagFor_def]
    unfold plainWrite
    rw [if_neg (by rw [hnf1]; exact Bool.false_ne_true),
        if_neg (by rw [hnt1]; exact Bool.false_ne_true)]
  refine ⟨_, hw, rfl, by rw [validate, decide_eq_true_eq]; exact le_of_eq rfl, ?_⟩
  intro htab
  show Tag.value (resolveCell w o k).2.clock (Tag.updatable (resolveCell w o k).1)
      = Tag.value (resolveCell w o k).2.clock Tag.constant
  rw [value_updatable, value_constant, resolveCell_fresh_value w o k htab]

/-- Witness for C8: plain writes to the untracked lastName field of the
unfrozen object 1 leave its freshly allocated tag constant-valued and
valid. -/
theorem C8_untracked_behaves_constant_witness :
    ∃ w2, plainWrite (tagFor frozenStore 1 "lastName").2 1 "lastName" "Mendes" = .ok w2
      ∧ w2.clock = (tagFor frozenStore 1 "lastName").2.clock
      ∧ validate w2.clock (tagFor frozenStore 1 "lastName").1
          (Tag.value (tagFor frozenStore 1 "lastName").2.clock
            (tagFor frozenStore 1 "lastName").1) = true
      ∧ (frozenStore.table 1 "lastName" = none →
          Tag.value w2.clock (tagFor frozenStore 1 "lastName").1
            = Tag.value w2.clock CONSTANT_TAG) :=
  C8_untracked_behaves_constant String frozenStore 1 "lastName" "Mendes" rfl (by decide)

/-- Modelled from the spec: the kind of a resolvable entry (component
definitions and partials are the two kinds named by the symmetry
requirement). -/
inductive EntryKind where
  | component : EntryKind
  | part : EntryKind
  deriving DecidableEq

/-- Modelled from the spec: one entry of the shared resolution system that
`CompileTimeLookup` and `RuntimeResolver` are two parts of: a (kind, name,
referrer) key resolving to a definition. Handles are indices into the shared
entry list. -/
structure Entry (D : Type) where
  kind : EntryKind
  name : String
  referrer : String
  value : D

/-- Predicate matching an entry against a lookup of the given kind, name and
referrer. -/
def entryMatches {D : Type} (kd : EntryKind) (name referrer : String) (e : Entry D) : Bool :=
  decide (e.kind = kd) && decide (e.name = name) && decide (e.referrer = referrer)

/-- First index whose entry satisfies the predicate: the handle embedded
into the program by compile-time lookup. -/
def findHandle {D : Type} (p : Entry D → Bool) : List (Entry D) → Option Nat
  | [] => none
  | e :: es => if p e then some 0 else (findHandle p es).map (· + 1)

/-- Modelled from the spec: `CompileTimeLookup.lookupComponentDefinition`
resolves a name relative to a referrer into a handle. -/
def lookupComponentDefinitionCT {D : Type} (tbl : List (Entry D)) (name referrer : String) :
    Option Nat :=
  findHandle (entryMatches EntryKind.component name referrer) tbl

/-- Modelled from the spec: `CompileTimeLookup.lookupPartial` resolves a
name relative to a referrer into a handle. -/
def lookupPartialCT {D : Type} (tbl : List (Entry D)) (name referrer : String) :
    Option Nat :=
  findHandle (entryMatches EntryKind.part name referrer) tbl

/-- Modelled from the spec: `resolve(handle)` turns a handle created by
compile-time lookup into the live definition. -/
def resolveHandle {D : Type} (tbl : List (Entry D)) (h : Nat) : Option D :=
  (tbl.get? h).map Entry.value

/-- Modelled from the spec: `RuntimeResolver.lookupComponentDefinition`
resolves the same name directly at run time against the shared table. -/
def lookupComponentDefinitionRT {D : Type} (tbl : List (Entry D)) (name referrer : String) :
    Option D :=
  (tbl.find? (entryMatches EntryKind.component name referrer)).map Entry.value

/-- Modelled from the spec: `RuntimeResolver.lookupPartial` resolves the
same name directly at run time against the shared table. -/
def lookupPartialRT {D : Type} (tbl : List (Entry D)) (name referrer : String) :
    Option D :=
  (tbl.find? (entryMatches EntryKind.part name referrer)).map Entry.value

theorem findHandle_resolve {D : Type} (p : Entry D → Bool) :
    (tbl : List (Entry D)) →
    (findHandle p tbl).bind (resolveHandle tbl) = (tbl.find? p).map Entry.value
  | [] => rfl
  | e :: es => by
      rw [findHandle]
      by_cases hp : p e = true
      · rw [if_pos hp, List.find?_cons_of_pos _ hp]
        rfl
      · rw [if_neg hp, List.find?_cons_of_neg _ hp, ← findHandle_resolve p es]
        cases hfe : findHandle p es with
        | none => rfl
        | some i => rfl

/-- Claim C9: compile-time lookup followed by runtime handle resolution is
equivalent to direct runtime lookup, for component definitions and for
partials: the same name resolves to the same definition at compile time and
at run time. -/
theorem C9_lookup_symmetry (D : Type) (tbl : List (Entry D)) (name referrer : String) :
    (lookupComponentDefinitionCT tbl name referrer).bind (resolveHandle tbl)
        = lookupComponentDefinitionRT tbl name referrer
    ∧ (lookupPartialCT tbl name referrer).bind (resolveHandle tbl)
        = lookupPartialRT tbl name referrer :=
  ⟨findHandle_resolve _ tbl, findHandle_resolve _ tbl⟩

/-- The `CompileTimeResolver.resolve` signature from serialize.d.ts:
`resolve<U>(handle: number): U | null`. -/
structure CompileTimeResolverIface (U : Type) where
  resolve : Nat → Option U

/-- The `RuntimeResolver.resolve` signature from serialize.d.ts:
`resolve<U>(handle: number): U` (never null). -/
structure RuntimeResolverIface (U : Type) where
  resolve : Nat → U

/-- The runtime resolve result viewed as an optional value: it is always
present. -/
def RuntimeResolverIface.resolveOpt {U : Type} (r : RuntimeResolverIface U) (h : Nat) :
    Option U := some (r.resolve h)

/-- Claim C10: runtime handle resolution always returns a resolved value
(its result, viewed as optional, is always present), while the compile-time
resolve signature admits a null result for some handle. -/
theorem C10_resolve_totality (U : Type) (r : RuntimeResolverIface U) :
    (∀ h, (RuntimeResolverIface.resolveOpt r h).isSome = true)
    ∧ ∃ c : CompileTimeResolverIface U, ∃ h, c.resolve h = none :=
  ⟨fun _ => rfl, ⟨⟨fun _ => none⟩, 0, rfl⟩⟩

end Glimmer
